import Mathlib

/-!
# Verification of the bin-extractor core (`src/backend.py`)

Shallow embedding of the signature-based file carver (`extract_binary_file`)
and of the selection/archiving pipeline (`create_zip`'s `progress_generator`).
Bytes are modelled as `List Nat` (each element a byte value); Python slices
`b[a:a+n]` become `(b.drop a).take n`; the streamed server-sent events become
an explicit `List ProgressEvent`.
-/

set_option autoImplicit false
set_option maxRecDepth 40000

namespace BinExtractor

/-- A carved sub-file record, mirroring the dict
`{'name', 'size', 'offset', 'data', 'type'}` built by `extract_binary_file`
(`ftype` stands for the Python key `type`). -/
structure CarvedFile where
  name : String
  size : Nat
  offset : Nat
  data : List Nat
  ftype : String
  deriving DecidableEq, Repr

/-- The signature catalog from `extract_binary_file` (`signatures` dict), in
Python 3.7+ dict insertion order: each entry is
(prefix bytes, type tag, recorded signature length `sig_len`). -/
def signatures : List (List Nat × String × Nat) :=
  [([0x89, 0x50, 0x4E, 0x47, 0x0D, 0x0A, 0x1A, 0x0A], ("png", 8)),
   ([0x47, 0x49, 0x46, 0x38, 0x39, 0x61], ("gif", 6)),
   ([0x47, 0x49, 0x46, 0x38, 0x37, 0x61], ("gif", 6)),
   ([0xFF, 0xD8, 0xFF], ("jpg", 3)),
   ([0x50, 0x4B, 0x03, 0x04], ("zip", 4)),
   ([0x25, 0x50, 0x44, 0x46], ("pdf", 4)),
   ([0x4D, 0x5A], ("exe", 2)),
   ([0x1F, 0x8B], ("gz", 2)),
   ([0x42, 0x4D], ("bmp", 2)),
   ([0x52, 0x49, 0x46, 0x46], ("wav", 4))]

/-- Python slice `b[a:a+n]` on a byte sequence (clamped at the end, like
Python slicing). -/
def sliceL (b : List Nat) (a n : Nat) : List Nat :=
  (b.drop a).take n

/-- The inner test of the delimiter loop: does any catalog prefix occur at
offset `j`?  Mirrors `for next_sig, _ in signatures.items(): if
file_content[j:j+len(next_sig)] == next_sig`. -/
def anySigAt (b : List Nat) (j : Nat) : Bool :=
  let rest := b.drop j
  signatures.any (fun s => rest.take s.1.length == s.1)

/-- The delimiter scan loop of `extract_binary_file` (lines 50-56): iterate
`j` over the remaining window carrying `end_pos` (initially the sentinel
`i + 1024`); if any signature matches at `j`, set `end_pos := j`; break as
soon as `end_pos` differs from the sentinel.  Note that a match at exactly
`j = sentinel` does not trigger the break. -/
def goEnd (b : List Nat) (sentinel : Nat) : List Nat → Nat → Nat
  | [], e => e
  | j :: js, e =>
      let e' := if anySigAt b j then j else e
      if e' = sentinel then goEnd b sentinel js e' else e'

/-- The full end-of-candidate computation for a match at `i` with matched
signature length `L` (lines 48-59): run the delimiter loop over
`range(i + sig_len, min(i + 10485760, len(b)))`; if `end_pos` still equals
the sentinel `i + 1024` afterwards, default to `min(i + 1048576, len(b))`. -/
def findEnd (b : List Nat) (i L : Nat) : Nat :=
  let sentinel := i + 1024
  let stop := min (i + 10485760) b.length
  let e := goEnd b sentinel (List.range' (i + L) (stop - (i + L))) sentinel
  if e = sentinel then min (i + 1048576) b.length else e

/-- Modelled from the spec: the content fingerprint used for record naming is
`hashlib.md5(file_content[i:i+100]).hexdigest()[:8]` — the md5 primitive is
an external library routine not part of this repository, so it is modelled
as a deterministic pure fingerprint of the same first-100-bytes slice
(an 8-hex-digit fold), per spec §4.2 step 5 / §9 ("hash of first N bytes"
→ a named pure `fingerprint` function). -/
def fingerprint (bs : List Nat) : String :=
  let h := bs.foldl (fun a c => (a * 131 + c) % 4294967296) 0
  let hexDigit := fun n => "0123456789abcdef".toList.getD n '0'
  String.mk [hexDigit (h / 16 ^ 7 % 16), hexDigit (h / 16 ^ 6 % 16),
    hexDigit (h / 16 ^ 5 % 16), hexDigit (h / 16 ^ 4 % 16),
    hexDigit (h / 16 ^ 3 % 16), hexDigit (h / 16 ^ 2 % 16),
    hexDigit (h / 16 % 16), hexDigit (h % 16)]

/-- One scan step of `extract_binary_file` at offset `i` (lines 43-68): each
catalog entry whose prefix matches `b[i:i+sig_len]` independently produces a
record whose extent runs from `i` to `findEnd b i sig_len`. -/
def matchesAt (b : List Nat) (i : Nat) : List CarvedFile :=
  signatures.filterMap (fun s =>
    if sliceL b i s.2.2 = s.1 then
      let e := findEnd b i s.2.2
      let fileData := sliceL b i (e - i)
      some ⟨"extracted_" ++ fingerprint (sliceL b i 100) ++ "." ++ s.2.1,
            fileData.length, i, fileData, s.2.1⟩
    else none)

/-- The signature scan of `extract_binary_file` (line 42):
`for i in range(len(file_content) - 10)` — note the scan stops 10 bytes
short of the end of the input. -/
def scanFiles (b : List Nat) : List CarvedFile :=
  (List.range (b.length - 10)).flatMap (matchesAt b)

/-- The fallback record appended when the scan finds nothing
(lines 70-78). -/
def fallbackFile (b : List Nat) : CarvedFile :=
  ⟨"binary_data.bin", b.length, 0, b, "bin"⟩

/-- `extract_binary_file` (lines 20-80): the carver.  Scans for signatures;
if no record is produced, returns the single whole-input fallback record. -/
def extract_binary_file (b : List Nat) : List CarvedFile :=
  let files := scanFiles b
  if files = [] then [fallbackFile b] else files

/-! ## General lemmas about the carver -/

theorem goEnd_cons_neg {b : List Nat} {sent j : Nat} {js : List Nat}
    (hj : anySigAt b j = false) :
    goEnd b sent (j :: js) sent = goEnd b sent js sent := by
  simp [goEnd, hj]

theorem goEnd_cons_pos {b : List Nat} {sent j : Nat} {js : List Nat}
    (hj : anySigAt b j = true) (hne : j ≠ sent) :
    goEnd b sent (j :: js) sent = j := by
  simp [goEnd, hj, hne]

theorem goEnd_none {b : List Nat} {sent : Nat} :
    ∀ {js : List Nat}, (∀ k ∈ js, anySigAt b k = false) →
      goEnd b sent js sent = sent
  | [], _ => rfl
  | j :: js, h => by
      rw [goEnd_cons_neg (h j (List.mem_cons_self j js))]
      exact goEnd_none (fun k hk => h k (List.mem_cons_of_mem j hk))

theorem goEnd_first {b : List Nat} {sent j : Nat} (js₁ js₂ : List Nat)
    (h₁ : ∀ k ∈ js₁, anySigAt b k = false)
    (hj : anySigAt b j = true) (hne : j ≠ sent) :
    goEnd b sent (js₁ ++ j :: js₂) sent = j := by
  induction js₁ with
  | nil => simpa using goEnd_cons_pos hj hne
  | cons a l ih =>
      rw [List.cons_append, goEnd_cons_neg (h₁ a (List.mem_cons_self a l))]
      exact ih (fun k hk => h₁ k (List.mem_cons_of_mem a hk))

/-- If no catalog prefix occurs anywhere in the forward window, the
delimiter defaults to `min (i + 1048576) b.length`. -/
theorem findEnd_default {b : List Nat} {i L : Nat}
    (h : ∀ k, i + L ≤ k → k < min (i + 10485760) b.length →
      anySigAt b k = false) :
    findEnd b i L = min (i + 1048576) b.length := by
  simp only [findEnd]
  rw [goEnd_none]
  · simp
  · intro k hk
    rcases List.mem_range'_1.mp hk with ⟨hk₁, hk₂⟩
    exact h k hk₁ (by omega)

/-- If the first occurrence `j` of any catalog prefix in the forward window
differs from the sentinel `i + 1024`, the delimiter stops exactly at `j`. -/
theorem findEnd_eq_first {b : List Nat} {i L j : Nat}
    (hlo : i + L ≤ j) (hhi : j < min (i + 10485760) b.length)
    (hj : anySigAt b j = true)
    (hfirst : ∀ k, i + L ≤ k → k < j → anySigAt b k = false)
    (hne : j ≠ i + 1024) :
    findEnd b i L = j := by
  simp only [findEnd]
  have hsplit : List.range' (i + L) (min (i + 10485760) b.length - (i + L)) =
      List.range' (i + L) (j - (i + L)) ++ j ::
        List.range' (j + 1) (min (i + 10485760) b.length - (j + 1)) := by
    have h₁ : j :: List.range' (j + 1) (min (i + 10485760) b.length - (j + 1))
        = List.range' j (min (i + 10485760) b.length - j) := by
      have : min (i + 10485760) b.length - j
          = (min (i + 10485760) b.length - (j + 1)) + 1 := by omega
      rw [this, List.range'_succ]
    rw [h₁]
    have h₂ := List.range'_append (i + L) (j - (i + L))
      (min (i + 10485760) b.length - j) 1
    have h₃ : i + L + 1 * (j - (i + L)) = j := by omega
    rw [h₃] at h₂
    rw [h₂]
    congr 1
    omega
  rw [hsplit, goEnd_first _ _ ?h₁ hj hne]
  · simp [hne]
  case h₁ =>
    intro k hk
    rcases List.mem_range'_1.mp hk with ⟨hk₁, hk₂⟩
    exact hfirst k hk₁ (by omega)

/-- Membership in `scanFiles` decomposes through the scanned offsets. -/
theorem mem_scanFiles {b : List Nat} {f : CarvedFile} :
    f ∈ scanFiles b ↔ ∃ i, i < b.length - 10 ∧ f ∈ matchesAt b i := by
  unfold scanFiles
  rw [List.mem_flatMap]
  constructor
  · rintro ⟨i, hi, hf⟩
    exact ⟨i, List.mem_range.mp hi, hf⟩
  · rintro ⟨i, hi, hf⟩
    exact ⟨i, List.mem_range.mpr hi, hf⟩

/-- The record produced by a catalog entry matching at offset `i`. -/
theorem mem_matchesAt {b sig : List Nat} {ext : String} {L i : Nat}
    (hentry : (sig, ext, L) ∈ signatures) (hmatch : sliceL b i L = sig) :
    (⟨"extracted_" ++ fingerprint (sliceL b i 100) ++ "." ++ ext,
      (sliceL b i (findEnd b i L - i)).length, i,
      sliceL b i (findEnd b i L - i), ext⟩ : CarvedFile) ∈ matchesAt b i := by
  apply List.mem_filterMap.mpr
  exact ⟨(sig, ext, L), hentry, by simp [hmatch]⟩

/-- Every record produced at offset `i` has offset `i`, and its data and
size are a slice of the input starting at `i` together with its length. -/
theorem mem_matchesAt_shape {b : List Nat} {i : Nat} {f : CarvedFile}
    (h : f ∈ matchesAt b i) :
    f.offset = i ∧ ∃ n, f.data = sliceL b i n ∧ f.size = (sliceL b i n).length := by
  rcases List.mem_filterMap.mp h with ⟨s, _, hs⟩
  by_cases hc : sliceL b i s.2.2 = s.1
  · rw [if_pos hc] at hs
    cases hs
    exact ⟨rfl, findEnd b i s.2.2 - i, rfl, rfl⟩
  · rw [if_neg hc] at hs
    cases hs

/-- No catalog prefix starts with a zero byte, so no signature occurs at an
offset whose byte is zero. -/
theorem anySigAt_zero {b t : List Nat} {j : Nat} (h : b.drop j = 0 :: t) :
    anySigAt b j = false := by
  simp [anySigAt, h, signatures]

/-- If no signature occurs at `i`, the scan step at `i` yields nothing. -/
theorem matchesAt_eq_nil {b : List Nat} {i : Nat} (h : anySigAt b i = false) :
    matchesAt b i = [] := by
  simp only [anySigAt, signatures, List.any_cons, List.any_nil,
    Bool.or_eq_false_iff, beq_eq_false_iff_ne, List.length_cons,
    List.length_nil, Nat.zero_add, Nat.reduceAdd] at h
  obtain ⟨h₁, h₂, h₃, h₄, h₅, h₆, h₇, h₈, h₉, h₁₀, -⟩ := h
  simp [matchesAt, signatures, sliceL, h₁, h₂, h₃, h₄, h₅, h₆, h₇, h₈, h₉, h₁₀]

theorem goEnd_append_none {b : List Nat} {sent : Nat} {js₁ js₂ : List Nat}
    (h : ∀ k ∈ js₁, anySigAt b k = false) :
    goEnd b sent (js₁ ++ js₂) sent = goEnd b sent js₂ sent := by
  induction js₁ with
  | nil => rfl
  | cons a l ih =>
      rw [List.cons_append, goEnd_cons_neg (h a (List.mem_cons_self a l))]
      exact ih (fun k hk => h k (List.mem_cons_of_mem a hk))

/-- A signature occurring exactly at the sentinel offset does not stop the
delimiter loop. -/
theorem goEnd_cons_sent {b : List Nat} {sent : Nat} {js : List Nat}
    (hj : anySigAt b sent = true) :
    goEnd b sent (sent :: js) sent = goEnd b sent js sent := by
  simp [goEnd, hj]

/-- The 'MZ' executable signature bytes. -/
def mzBytes : List Nat := [0x4D, 0x5A]

/-- Sentinel-collision input: an MZ match at offset 0 whose first following
signature occurrence sits exactly at offset `0 + 1024`. -/
def ex1 : List Nat := mzBytes ++ (List.replicate 1022 0 ++ mzBytes)

theorem ex1_length : ex1.length = 1026 := by
  simp only [ex1, mzBytes, List.length_append, List.length_replicate,
    List.length_cons, List.length_nil]

theorem ex1_drop_mid (m : Nat) (hm : m ≤ 1021) :
    ex1.drop (m + 2) = 0 :: (List.replicate (1021 - m) 0 ++ mzBytes) := by
  have h₁ : ex1.drop (m + 2) = (List.replicate 1022 (0:Nat)).drop m ++ mzBytes := by
    simp only [ex1, mzBytes, List.cons_append, List.nil_append,
      List.drop_succ_cons]
    exact List.drop_append_of_le_length (by rw [List.length_replicate]; omega)
  rw [h₁, List.drop_replicate, show (1022:Nat) - m = (1021 - m) + 1 from by omega,
    List.replicate_succ, List.cons_append]

theorem ex1_nosig_mid {k : Nat} (h₂ : 2 ≤ k) (h₃ : k ≤ 1023) :
    anySigAt ex1 k = false := by
  have h := ex1_drop_mid (k - 2) (by omega)
  rw [show k - 2 + 2 = k from by omega] at h
  exact anySigAt_zero h

theorem ex1_findEnd : findEnd ex1 0 2 = 1026 := by
  have hsplit : List.range' 2 1024 = List.range' 2 1022 ++ [1024, 1025] := by
    have h := List.range'_append 2 1022 2 1
    norm_num at h
    rw [← h]
    rfl
  have hgo : goEnd ex1 1024 (List.range' 2 1024) 1024 = 1024 := by
    rw [hsplit, goEnd_append_none (fun k hk => by
      rcases List.mem_range'_1.mp hk with ⟨hk₁, hk₂⟩
      exact ex1_nosig_mid hk₁ (by omega))]
    rw [show ([1024, 1025] : List Nat) = 1024 :: [1025] from rfl,
      goEnd_cons_sent (by decide), goEnd_cons_neg (by decide)]
    rfl
  simp only [findEnd, ex1_length]
  norm_num
  rw [hgo]
  norm_num

theorem ex1_matchesAt :
    matchesAt ex1 0 =
      [⟨"extracted_" ++ fingerprint (sliceL ex1 0 100) ++ "." ++ "exe",
        1026, 0, sliceL ex1 0 1026, "exe"⟩] := by
  have c₁ : sliceL ex1 0 8 ≠ [0x89, 0x50, 0x4E, 0x47, 0x0D, 0x0A, 0x1A, 0x0A] := by decide
  have c₂ : sliceL ex1 0 6 ≠ [0x47, 0x49, 0x46, 0x38, 0x39, 0x61] := by decide
  have c₃ : sliceL ex1 0 6 ≠ [0x47, 0x49, 0x46, 0x38, 0x37, 0x61] := by decide
  have c₄ : sliceL ex1 0 3 ≠ [0xFF, 0xD8, 0xFF] := by decide
  have c₅ : sliceL ex1 0 4 ≠ [0x50, 0x4B, 0x03, 0x04] := by decide
  have c₆ : sliceL ex1 0 4 ≠ [0x25, 0x50, 0x44, 0x46] := by decide
  have c₇ : sliceL ex1 0 2 = [0x4D, 0x5A] := by decide
  have c₈ : sliceL ex1 0 2 ≠ [0x1F, 0x8B] := by decide
  have c₉ : sliceL ex1 0 2 ≠ [0x42, 0x4D] := by decide
  have c₁₀ : sliceL ex1 0 4 ≠ [0x52, 0x49, 0x46, 0x46] := by decide
  have hlen : (sliceL ex1 0 1026).length = 1026 := by
    simp [sliceL, ex1_length]
  simp [matchesAt, signatures, c₁, c₂, c₃, c₄, c₅, c₆, c₇, c₈, c₉, c₁₀,
    ex1_findEnd, hlen]

theorem ex1_extract :
    extract_binary_file ex1 =
      [⟨"extracted_" ++ fingerprint (sliceL ex1 0 100) ++ "." ++ "exe",
        1026, 0, sliceL ex1 0 1026, "exe"⟩] := by
  have hscan : scanFiles ex1 = matchesAt ex1 0 := by
    simp only [scanFiles, ex1_length]
    norm_num
    have hr : List.range 1016 = [0] ++ List.range' 1 1015 := by
      have h := List.range'_append 0 1 1015 1
      norm_num at h
      rw [List.range_eq_range', ← h]
      rfl
    rw [hr, List.flatMap_append]
    have h₂ : (List.range' 1 1015).flatMap (matchesAt ex1) = [] := by
      apply List.flatMap_eq_nil_iff.mpr
      intro k hk
      rcases List.mem_range'_1.mp hk with ⟨hk₁, hk₂⟩
      rcases Nat.lt_or_ge k 2 with hk₃ | hk₃
      · have : k = 1 := by omega
        subst this
        exact matchesAt_eq_nil (by decide)
      · exact matchesAt_eq_nil (ex1_nosig_mid hk₃ (by omega))
    rw [h₂]
    simp
  rw [extract_binary_file, hscan, ex1_matchesAt]
  rfl

/-- When the scan finds something, the carver returns exactly the scan. -/
theorem extract_eq_scan {b : List Nat} (h : scanFiles b ≠ []) :
    extract_binary_file b = scanFiles b := by
  simp [extract_binary_file, h]

/-- When the scan finds nothing, the carver returns the fallback record. -/
theorem extract_eq_fallback {b : List Nat} (h : scanFiles b = []) :
    extract_binary_file b = [fallbackFile b] := by
  simp [extract_binary_file, h]

/-- C1 (amended): for a match at `i` with prefix length `L`, if the first
occurrence `j` of any catalog prefix in the forward window differs from
`i + 1024`, the carved record for that match ends exactly at `j`.  (For
`j = i + 1024` the sentinel collision makes the code miss it; see the
counterexample.) -/
theorem claim1_amended {b sig : List Nat} {ext : String} {L i j : Nat}
    (hentry : (sig, ext, L) ∈ signatures) (hmatch : sliceL b i L = sig)
    (hscan : i + 10 < b.length)
    (hlo : i + L ≤ j) (hhi : j < min (i + 10485760) b.length)
    (hj : anySigAt b j = true)
    (hfirst : ∀ k, k < j → i + L ≤ k → anySigAt b k = false)
    (hne : j ≠ i + 1024) :
    findEnd b i L = j ∧
    ∃ f ∈ extract_binary_file b, f.offset = i ∧ f.ftype = ext ∧
      f.data = sliceL b i (j - i) ∧ f.size = (sliceL b i (j - i)).length := by
  have he : findEnd b i L = j :=
    findEnd_eq_first hlo hhi hj (fun k hk₁ hk₂ => hfirst k hk₂ hk₁) hne
  refine ⟨he, ?_⟩
  have hmem := mem_matchesAt hentry hmatch
  rw [he] at hmem
  have hsf := mem_scanFiles.mpr ⟨i, by omega, hmem⟩
  have hnil : scanFiles b ≠ [] := fun hn => by
    rw [hn] at hsf
    exact absurd hsf (List.not_mem_nil _)
  rw [extract_eq_scan hnil]
  exact ⟨_, hsf, rfl, rfl, rfl, rfl⟩

/-- C1 witness input: 'MZ' at offset 0, next (and first) signature
occurrence at offset 22, well away from the sentinel. -/
def exW : List Nat := mzBytes ++ (List.replicate 20 0 ++ mzBytes)

/-- C1 witness: with the first following occurrence at offset 22 (≠ 1024),
the carved record for the match at 0 ends exactly at 22. -/
theorem claim1_witness :
    findEnd exW 0 2 = 22 ∧
    ∃ f ∈ extract_binary_file exW, f.offset = 0 ∧ f.ftype = "exe" ∧
      f.data = sliceL exW 0 (22 - 0) ∧ f.size = (sliceL exW 0 (22 - 0)).length :=
  @claim1_amended exW [0x4D, 0x5A] "exe" 2 0 22 (by decide) (by decide)
    (by decide) (by decide) (by decide) (by decide) (by decide) (by decide)

/-- C1 counterexample: in `ex1`, the match at offset 0 has matched length 2,
and the first occurrence of any catalog prefix in the window `[2, 1026)` is
at offset 1024; the claim says the record must span `[0, 1024)`, but the
code (whose delimiter sentinel is exactly `0 + 1024`) produces a single
record of size 1026. -/
theorem claim1_counterexample :
    sliceL ex1 0 2 = [0x4D, 0x5A] ∧
    anySigAt ex1 1024 = true ∧
    ((List.range' 2 1022).all fun k => !anySigAt ex1 k) = true ∧
    (extract_binary_file ex1).map (fun f => (f.offset, f.size)) = [(0, 1026)] := by
  refine ⟨by decide, by decide, ?_, ?_⟩
  · apply List.all_eq_true.mpr
    intro k hk
    rcases List.mem_range'_1.mp hk with ⟨hk₁, hk₂⟩
    simp [ex1_nosig_mid hk₁ (by omega)]
  · rw [ex1_extract]
    rfl

/-- C2 (amended): the scan records a signature match starting at offset `i`
exactly when `i + 10 < len(input)`: the loop `for i in range(len - 10)`
skips the last 10 starting offsets, so complete matches lying there are
missed. -/
theorem claim2_amended {b sig : List Nat} {ext : String} {L i : Nat}
    (hentry : (sig, ext, L) ∈ signatures) (hmatch : sliceL b i L = sig) :
    (∃ f ∈ scanFiles b, f.offset = i) ↔ i + 10 < b.length := by
  constructor
  · rintro ⟨f, hf, hoff⟩
    rcases mem_scanFiles.mp hf with ⟨i', hi', hm⟩
    have h := (mem_matchesAt_shape hm).1
    rw [hoff] at h
    omega
  · intro hi
    exact ⟨_, mem_scanFiles.mpr ⟨i, by omega, mem_matchesAt hentry hmatch⟩, rfl⟩

/-- C2 witness: with one padding byte beyond the 10-byte dead zone
(length 11, match at 0), the match is recorded. -/
theorem claim2_witness :
    ∃ f ∈ scanFiles (mzBytes ++ List.replicate 9 0), f.offset = 0 :=
  (@claim2_amended (mzBytes ++ List.replicate 9 0) [0x4D, 0x5A] "exe" 2 0
    (by decide) (by decide)).mpr (by decide)

/-- C2 counterexample: a complete 'MZ' signature match sits at offset 0 of a
10-byte input, entirely inside the input, but the scan
(`range(len - 10) = range(0)`) never considers it: the carver returns only
the generic fallback record instead of an exe record. -/
theorem claim2_counterexample :
    sliceL (mzBytes ++ List.replicate 8 0) 0 2 = [0x4D, 0x5A] ∧
    (extract_binary_file (mzBytes ++ List.replicate 8 0)).map
      (fun f => f.ftype) = ["bin"] := by
  decide

/-- C4: the carver is total and never returns an empty sequence; when the
scan records nothing it returns exactly one fallback record spanning all of
the input with the fixed name `binary_data.bin` and generic tag `bin`; on
empty input that single record has size 0. -/
theorem claim4_fallback (b : List Nat) :
    extract_binary_file b ≠ [] ∧
    (scanFiles b = [] →
      extract_binary_file b = [⟨"binary_data.bin", b.length, 0, b, "bin"⟩]) ∧
    extract_binary_file [] = [⟨"binary_data.bin", 0, 0, [], "bin"⟩] := by
  refine ⟨?_, ?_, by decide⟩
  · by_cases h : scanFiles b = []
    · rw [extract_eq_fallback h]
      exact List.cons_ne_nil _ _
    · rw [extract_eq_scan h]
      exact h
  · intro h
    rw [extract_eq_fallback h]
    rfl

/-- C4 witness: on the 1-byte input `[0]` the scan is empty and the carver
returns the single fallback record. -/
theorem claim4_witness :
    scanFiles [0] = [] ∧
    extract_binary_file [0] = [⟨"binary_data.bin", 1, 0, [0], "bin"⟩] :=
  ⟨by decide, (claim4_fallback [0]).2.1 (by decide)⟩

/-- C7: every carved record satisfies `0 ≤ offset` and
`offset + size ≤ len(input)`. -/
theorem claim7_range_validity {b : List Nat} {f : CarvedFile}
    (hf : f ∈ extract_binary_file b) :
    0 ≤ f.offset ∧ f.offset + f.size ≤ b.length := by
  refine ⟨Nat.zero_le _, ?_⟩
  by_cases h : scanFiles b = []
  · rw [extract_eq_fallback h] at hf
    rcases List.mem_singleton.mp hf with rfl
    simp [fallbackFile]
  · rw [extract_eq_scan h] at hf
    rcases mem_scanFiles.mp hf with ⟨i, hi, hm⟩
    obtain ⟨hoff, n, hdata, hsize⟩ := mem_matchesAt_shape hm
    rw [hoff, hsize]
    simp only [sliceL, List.length_take, List.length_drop]
    omega

/-- C7 witness: the fallback record of `[5]` has `offset + size ≤ 1`. -/
theorem claim7_witness :
    0 ≤ (fallbackFile [5]).offset ∧
    (fallbackFile [5]).offset + (fallbackFile [5]).size ≤ [5].length :=
  @claim7_range_validity [5] (fallbackFile [5]) (by decide)

/-- C10: every carved record's size equals the length of its data, and its
data is exactly the input slice `b[offset : offset + size]`. -/
theorem claim10_consistency {b : List Nat} {f : CarvedFile}
    (hf : f ∈ extract_binary_file b) :
    f.size = f.data.length ∧ f.data = sliceL b f.offset f.size := by
  by_cases h : scanFiles b = []
  · rw [extract_eq_fallback h] at hf
    rcases List.mem_singleton.mp hf with rfl
    refine ⟨rfl, ?_⟩
    simp [fallbackFile, sliceL]
  · rw [extract_eq_scan h] at hf
    rcases mem_scanFiles.mp hf with ⟨i, hi, hm⟩
    obtain ⟨hoff, n, hdata, hsize⟩ := mem_matchesAt_shape hm
    refine ⟨by rw [hsize, hdata], ?_⟩
    rw [hdata, hoff, hsize]
    simp only [sliceL, List.length_take, List.length_drop]
    apply (List.take_eq_take.mpr _).symm
    simp only [List.length_drop]
    omega

/-- C10 witness: the fallback record of `[7, 8]` is consistent. -/
theorem claim10_witness :
    (fallbackFile [7, 8]).size = (fallbackFile [7, 8]).data.length ∧
    (fallbackFile [7, 8]).data =
      sliceL [7, 8] (fallbackFile [7, 8]).offset (fallbackFile [7, 8]).size :=
  @claim10_consistency [7, 8] (fallbackFile [7, 8]) (by decide)

/-- A take of a nonempty prefix length cannot equal a list with a different
head. -/
theorem take_ne_of_head {a c : Nat} {l m : List Nat} {n : Nat}
    (hn : 1 ≤ n) (h : a ≠ c) : (a :: l).take n ≠ c :: m := by
  cases n with
  | zero => omega
  | succ k =>
      rw [List.take_succ_cons]
      simp [h]

/-- A catalog prefix laid out verbatim at offset `j` is an occurrence. -/
theorem anySigAt_of_entry {b sig t : List Nat} {ext : String} {L j : Nat}
    (hentry : (sig, ext, L) ∈ signatures) (hdrop : b.drop j = sig ++ t) :
    anySigAt b j = true := by
  simp only [anySigAt]
  apply List.any_eq_true.mpr
  refine ⟨(sig, ext, L), hentry, ?_⟩
  rw [hdrop, List.take_left]
  exact beq_self_eq_true sig

/-- The 8-byte PNG signature. -/
def pngSig : List Nat := [0x89, 0x50, 0x4E, 0x47, 0x0D, 0x0A, 0x1A, 0x0A]

/-- The 4-byte ZIP local-file-header signature `PK\x03\x04`. -/
def pkSig : List Nat := [0x50, 0x4B, 0x03, 0x04]

/-- Scenario B input: PNG signature, 50 filler bytes, ZIP signature,
100 trailing bytes. -/
def scenB (F T : List Nat) : List Nat := (pngSig ++ F) ++ (pkSig ++ T)

theorem scenB_length {F T : List Nat} (hF : F.length = 50)
    (hT : T.length = 100) : (scenB F T).length = 162 := by
  simp [scenB, pngSig, pkSig, hF, hT]

theorem scenB_drop58 {F T : List Nat} (hF : F.length = 50) :
    (scenB F T).drop 58 = pkSig ++ T := by
  have h : (pngSig ++ F).length = 58 := by simp [pngSig, hF]
  rw [scenB, ← h, List.drop_left]

theorem scenB_slice0 {F T : List Nat} : sliceL (scenB F T) 0 8 = pngSig := by
  have h₁ : List.take 8 ((pngSig ++ F) ++ (pkSig ++ T))
      = List.take 8 (pngSig ++ F) :=
    List.take_append_of_le_length (by simp [pngSig])
  have h₂ : List.take 8 (pngSig ++ F) = pngSig := List.take_left pngSig F
  simp only [sliceL, scenB, List.drop_zero]
  rw [h₁, h₂]

theorem scenB_slice58 {F T : List Nat} (hF : F.length = 50) :
    sliceL (scenB F T) 58 4 = pkSig := by
  rw [sliceL, scenB_drop58 hF]
  exact List.take_left pkSig T

theorem scenB_matchesAt0 {F T : List Nat} (hF : F.length = 50)
    (hT : T.length = 100)
    (h : ∀ i, i < 162 → i ≠ 0 → i ≠ 58 → anySigAt (scenB F T) i = false) :
    matchesAt (scenB F T) 0 =
      [⟨"extracted_" ++ fingerprint (sliceL (scenB F T) 0 100) ++ "." ++ "png",
        (sliceL (scenB F T) 0 58).length, 0, sliceL (scenB F T) 0 58, "png"⟩] := by
  have hb : scenB F T
      = 0x89 :: (([0x50, 0x4E, 0x47, 0x0D, 0x0A, 0x1A, 0x0A] ++ F)
        ++ (pkSig ++ T)) := rfl
  have hsl : ∀ n : Nat, sliceL (scenB F T) 0 n
      = (0x89 :: (([0x50, 0x4E, 0x47, 0x0D, 0x0A, 0x1A, 0x0A] ++ F)
        ++ (pkSig ++ T))).take n := by
    intro n
    rw [sliceL, List.drop_zero, hb]
  have c₁ : sliceL (scenB F T) 0 8 = [0x89, 0x50, 0x4E, 0x47, 0x0D, 0x0A, 0x1A, 0x0A] :=
    scenB_slice0
  have c₂ : sliceL (scenB F T) 0 6 ≠ [0x47, 0x49, 0x46, 0x38, 0x39, 0x61] := by
    rw [hsl]; exact take_ne_of_head (by norm_num) (by norm_num)
  have c₃ : sliceL (scenB F T) 0 6 ≠ [0x47, 0x49, 0x46, 0x38, 0x37, 0x61] := by
    rw [hsl]; exact take_ne_of_head (by norm_num) (by norm_num)
  have c₄ : sliceL (scenB F T) 0 3 ≠ [0xFF, 0xD8, 0xFF] := by
    rw [hsl]; exact take_ne_of_head (by norm_num) (by norm_num)
  have c₅ : sliceL (scenB F T) 0 4 ≠ [0x50, 0x4B, 0x03, 0x04] := by
    rw [hsl]; exact take_ne_of_head (by norm_num) (by norm_num)
  have c₆ : sliceL (scenB F T) 0 4 ≠ [0x25, 0x50, 0x44, 0x46] := by
    rw [hsl]; exact take_ne_of_head (by norm_num) (by norm_num)
  have c₇ : sliceL (scenB F T) 0 2 ≠ [0x4D, 0x5A] := by
    rw [hsl]; exact take_ne_of_head (by norm_num) (by norm_num)
  have c₈ : sliceL (scenB F T) 0 2 ≠ [0x1F, 0x8B] := by
    rw [hsl]; exact take_ne_of_head (by norm_num) (by norm_num)
  have c₉ : sliceL (scenB F T) 0 2 ≠ [0x42, 0x4D] := by
    rw [hsl]; exact take_ne_of_head (by norm_num) (by norm_num)
  have c₁₀ : sliceL (scenB F T) 0 4 ≠ [0x52, 0x49, 0x46, 0x46] := by
    rw [hsl]; exact take_ne_of_head (by norm_num) (by norm_num)
  have hfe : findEnd (scenB F T) 0 8 = 58 := by
    apply findEnd_eq_first (by norm_num)
      (by rw [scenB_length hF hT]; norm_num)
      (@anySigAt_of_entry (scenB F T) pkSig T "zip" 4 58
        (by decide) (scenB_drop58 hF))
      (fun k hk₁ hk₂ => h k (by omega) (by omega) (by omega))
      (by norm_num)
  simp [matchesAt, signatures, c₁, c₂, c₃, c₄, c₅, c₆, c₇, c₈, c₉, c₁₀, hfe]

theorem scenB_matchesAt58 {F T : List Nat} (hF : F.length = 50)
    (hT : T.length = 100)
    (h : ∀ i, i < 162 → i ≠ 0 → i ≠ 58 → anySigAt (scenB F T) i = false) :
    matchesAt (scenB F T) 58 =
      [⟨"extracted_" ++ fingerprint (sliceL (scenB F T) 58 100) ++ "." ++ "zip",
        (sliceL (scenB F T) 58 104).length, 58, sliceL (scenB F T) 58 104,
        "zip"⟩] := by
  have hd : (scenB F T).drop 58 = 0x50 :: ([0x4B, 0x03, 0x04] ++ T) := by
    rw [scenB_drop58 hF]
    rfl
  have hsl : ∀ n : Nat, sliceL (scenB F T) 58 n
      = (0x50 :: ([0x4B, 0x03, 0x04] ++ T)).take n := by
    intro n
    rw [sliceL, hd]
  have c₁ : sliceL (scenB F T) 58 8 ≠ [0x89, 0x50, 0x4E, 0x47, 0x0D, 0x0A, 0x1A, 0x0A] := by
    rw [hsl]; exact take_ne_of_head (by norm_num) (by norm_num)
  have c₂ : sliceL (scenB F T) 58 6 ≠ [0x47, 0x49, 0x46, 0x38, 0x39, 0x61] := by
    rw [hsl]; exact take_ne_of_head (by norm_num) (by norm_num)
  have c₃ : sliceL (scenB F T) 58 6 ≠ [0x47, 0x49, 0x46, 0x38, 0x37, 0x61] := by
    rw [hsl]; exact take_ne_of_head (by norm_num) (by norm_num)
  have c₄ : sliceL (scenB F T) 58 3 ≠ [0xFF, 0xD8, 0xFF] := by
    rw [hsl]; exact take_ne_of_head (by norm_num) (by norm_num)
  have c₅ : sliceL (scenB F T) 58 4 = [0x50, 0x4B, 0x03, 0x04] :=
    scenB_slice58 hF
  have c₆ : sliceL (scenB F T) 58 4 ≠ [0x25, 0x50, 0x44, 0x46] := by
    rw [hsl]; exact take_ne_of_head (by norm_num) (by norm_num)
  have c₇ : sliceL (scenB F T) 58 2 ≠ [0x4D, 0x5A] := by
    rw [hsl]; exact take_ne_of_head (by norm_num) (by norm_num)
  have c₈ : sliceL (scenB F T) 58 2 ≠ [0x1F, 0x8B] := by
    rw [hsl]; exact take_ne_of_head (by norm_num) (by norm_num)
  have c₉ : sliceL (scenB F T) 58 2 ≠ [0x42, 0x4D] := by
    rw [hsl]; exact take_ne_of_head (by norm_num) (by norm_num)
  have c₁₀ : sliceL (scenB F T) 58 4 ≠ [0x52, 0x49, 0x46, 0x46] := by
    rw [hsl]; exact take_ne_of_head (by norm_num) (by norm_num)
  have hfe : findEnd (scenB F T) 58 4 = 162 := by
    have hd₂ := @findEnd_default (scenB F T) 58 4
      (fun k hk₁ hk₂ => h k
        (by rw [scenB_length hF hT] at hk₂; omega) (by omega) (by omega))
    rw [scenB_length hF hT] at hd₂
    norm_num at hd₂
    exact hd₂
  simp [matchesAt, signatures, c₁, c₂, c₃, c₄, c₅, c₆, c₇, c₈, c₉, c₁₀, hfe]

theorem scenB_scan {F T : List Nat} (hF : F.length = 50) (hT : T.length = 100)
    (h : ∀ i, i < 162 → i ≠ 0 → i ≠ 58 → anySigAt (scenB F T) i = false) :
    scanFiles (scenB F T) =
      matchesAt (scenB F T) 0 ++ matchesAt (scenB F T) 58 := by
  simp only [scanFiles, scenB_length hF hT, Nat.reduceSub]
  have hr : List.range 152
      = [0] ++ (List.range' 1 57 ++ ([58] ++ List.range' 59 93)) := by decide
  have h₁ : (List.range' 1 57).flatMap (matchesAt (scenB F T)) = [] := by
    apply List.flatMap_eq_nil_iff.mpr
    intro k hk
    rcases List.mem_range'_1.mp hk with ⟨hk₁, hk₂⟩
    exact matchesAt_eq_nil (h k (by omega) (by omega) (by omega))
  have h₂ : (List.range' 59 93).flatMap (matchesAt (scenB F T)) = [] := by
    apply List.flatMap_eq_nil_iff.mpr
    intro k hk
    rcases List.mem_range'_1.mp hk with ⟨hk₁, hk₂⟩
    exact matchesAt_eq_nil (h k (by omega) (by omega) (by omega))
  rw [hr, List.flatMap_append, List.flatMap_append, List.flatMap_append,
    h₁, h₂]
  simp

/-- C8: for inputs of shape PNG signature + 50 filler bytes + ZIP signature
+ 100 trailing bytes in which no catalog prefix occurs anywhere except at
offsets 0 and 58, the carver yields exactly a png-tagged record spanning
`[0, 58)` and a zip-tagged record starting at 58 (spanning to the end). -/
theorem claim8_scenarioB {F T : List Nat} (hF : F.length = 50)
    (hT : T.length = 100)
    (h : ∀ i, i < 162 → i ≠ 0 → i ≠ 58 → anySigAt (scenB F T) i = false) :
    extract_binary_file (scenB F T) =
      [⟨"extracted_" ++ fingerprint (sliceL (scenB F T) 0 100) ++ "." ++ "png",
        58, 0, sliceL (scenB F T) 0 58, "png"⟩,
       ⟨"extracted_" ++ fingerprint (sliceL (scenB F T) 58 100) ++ "." ++ "zip",
        104, 58, sliceL (scenB F T) 58 104, "zip"⟩] := by
  have hm0 := scenB_matchesAt0 hF hT h
  have hm58 := scenB_matchesAt58 hF hT h
  have hs := scenB_scan hF hT h
  have hl0 : (sliceL (scenB F T) 0 58).length = 58 := by
    simp [sliceL, scenB_length hF hT]
  have hl58 : (sliceL (scenB F T) 58 104).length = 104 := by
    simp [sliceL, scenB_length hF hT]
  rw [extract_eq_scan (by rw [hs, hm0]; simp), hs, hm0, hm58, hl0, hl58]
  rfl

/-- C8 witness: the all-zero filler instance of scenario B. -/
theorem claim8_witness :
    extract_binary_file (scenB (List.replicate 50 0) (List.replicate 100 0)) =
      [⟨"extracted_" ++ fingerprint
          (sliceL (scenB (List.replicate 50 0) (List.replicate 100 0)) 0 100)
          ++ "." ++ "png",
        58, 0,
        sliceL (scenB (List.replicate 50 0) (List.replicate 100 0)) 0 58,
        "png"⟩,
       ⟨"extracted_" ++ fingerprint
          (sliceL (scenB (List.replicate 50 0) (List.replicate 100 0)) 58 100)
          ++ "." ++ "zip",
        104, 58,
        sliceL (scenB (List.replicate 50 0) (List.replicate 100 0)) 58 104,
        "zip"⟩] :=
  claim8_scenarioB (by decide) (by decide) (by decide)

/-- The server-sent events emitted by `create_zip`'s `progress_generator`
(`{'type': 'info'|'progress'|'complete'|'error', ...}`). -/
inductive ProgressEvent where
  | info (msg : String)
  | progress (value : Nat) (msg : String)
  | complete (size : Nat)
  | error (msg : String)
  deriving DecidableEq, Repr

/-- Round-to-nearest of the exact quotient `a / b`, ties to even
(the IEEE-754 default rounding of a correctly rounded operation). -/
def roundEvenDiv (a b : Nat) : Nat :=
  let q := a / b
  let r := a % b
  if b < 2 * r then q + 1
  else if 2 * r < b then q
  else if q % 2 = 0 then q else q + 1

/-- Smallest scaling shift `s` with `idx * 2 ^ s ≥ 2 ^ 52 * total`, found
by fueled search (the fuel passed by callers always suffices).  `idx / 2 ^ s`
then sits in the binade `[2 ^ 52, 2 ^ 53)` scaled by `total`. -/
def floatScale (idx total : Nat) : Nat → Nat → Nat
  | 0, s => s
  | fuel + 1, s =>
      if 2 ^ 52 * total ≤ idx * 2 ^ s then s
      else floatScale idx total fuel (s + 1)

/-- The binary64 value of the Python true-division `idx / total` for
`0 ≤ idx < total` (the only arguments the loop evaluates it on), as an
exact dyadic pair `(m, s)` denoting `m / 2 ^ s`: the exact quotient is
scaled into the binade `[2 ^ 52, 2 ^ 53)` and rounded to nearest, ties to
even — a correctly rounded division as CPython performs it. -/
def pyDiv (idx total : Nat) : Nat × Nat :=
  if idx = 0 then (0, 0)
  else
    let s := floatScale idx total (total + 53) 0
    (roundEvenDiv (idx * 2 ^ s) total, s)

/-- Number of halvings needed to bring `x` under `2 ^ 53` (the excess of
`x`'s bit length over the 53-bit significand), by fueled search. -/
def mantShift : Nat → Nat → Nat
  | 0, _ => 0
  | fuel + 1, x => if x < 2 ^ 53 then 0 else mantShift fuel (x / 2) + 1

/-- The binary64 product of the dyadic value `(m, s)` with the exact float
`100.0`: the exact product `100 * m / 2 ^ s` is rounded back to a 53-bit
significand (round to nearest, ties to even), kept as a dyadic pair. -/
def pyMul100 (d : Nat × Nat) : Nat × Nat :=
  let x := 100 * d.1
  let k := mantShift x x
  (roundEvenDiv x (2 ^ k) * 2 ^ k, d.2)

/-- The progress percent computed at line 191:
`int((idx / total_files) * 100)` — a binary64 true division, a binary64
multiplication by 100.0, and an `int()` truncation toward zero (= floor,
the value being non-negative), modelled exactly in integer arithmetic. -/
def pyPercent (idx total : Nat) : Nat :=
  let p := pyMul100 (pyDiv idx total)
  p.1 / 2 ^ p.2

/-- Python list indexing `l[k]`: non-negative indices from the front,
negative indices from the back, `none` = `IndexError`. -/
def pyIndex {α : Type} (l : List α) (k : Int) : Option α :=
  if 0 ≤ k then l.get? k.toNat
  else if 0 ≤ (l.length : Int) + k then l.get? ((l.length : Int) + k).toNat
  else none

/-- The `for idx, file_idx in enumerate(selected_indices)` loop of
`create_zip` (lines 187-196), processing the enumerated pairs in order.
Returns the emitted events, the entries written into the zip (name and
bytes, in write order), and whether the loop ran to completion (`false`
means an uncaught `IndexError` aborted the generator; the error event is
already included).  For each pair: skip silently when
`file_idx < len(extracted)` fails, otherwise resolve
`extracted_files[file_idx]` (Python semantics, possibly negative), emit the
per-item progress event, and append the entry. -/
def zipLoop (extracted : List CarvedFile) (total : Nat) :
    List (Nat × Int) → List ProgressEvent × List (String × List Nat) × Bool
  | [] => ([], [], true)
  | (idx, k) :: rest =>
      if k < (extracted.length : Int) then
        match pyIndex extracted k with
        | none => ([ProgressEvent.error "list index out of range"], [], false)
        | some fi =>
            let ev := ProgressEvent.progress (pyPercent idx total)
              ("Adding " ++ fi.name)
            let r := zipLoop extracted total rest
            (ev :: r.1, (fi.name, fi.data) :: r.2.1, r.2.2)
      else zipLoop extracted total rest

/-- The event stream of `create_zip`'s `progress_generator`
(lines 160-212).  External effects are oracles: `metaOk`/`binOk` model the
two stored-file loads (a failure raises before any event), `saveOk` models
the zip save + volume commit after the final progress event, and `zipSize`
models the byte size of the in-memory archive produced by the external
`zipfile` writer from the written entries.  All other steps are the
in-memory computation of the source: the two info events, the per-item
loop, the fixed 100-percent progress event, and the terminal
complete/error event. -/
def progress_generator (metaOk binOk saveOk : Bool)
    (zipSize : List (String × List Nat) → Nat)
    (content : List Nat) (selected : List Int) : List ProgressEvent :=
  if metaOk then
    if binOk then
      let extracted := extract_binary_file content
      let r := zipLoop extracted selected.length selected.enum
      ProgressEvent.info "Extracting files from binary..." ::
      ProgressEvent.info ("Found " ++ toString extracted.length ++ " files") ::
      (r.1 ++
        (if r.2.2 then
          ProgressEvent.progress 100 "ZIP creation complete!" ::
          (if saveOk then [ProgressEvent.complete (zipSize r.2.1)]
           else [ProgressEvent.error "save failed"])
         else []))
    else [ProgressEvent.error "No such file or directory: bin"]
  else [ProgressEvent.error "No such file or directory: metadata"]

/-- The entries written into the archive for a given stored content and
selection (the Selector+Archiver write set). -/
def writtenEntries (content : List Nat) (selected : List Int) :
    List (String × List Nat) :=
  (zipLoop (extract_binary_file content) selected.length selected.enum).2.1


/-- An index in `[-len, len)` resolves to an element (no `IndexError`). -/
theorem pyIndex_isSome {α : Type} {l : List α} {k : Int}
    (hlt : k < (l.length : Int)) (hge : -(l.length : Int) ≤ k) :
    ∃ a, pyIndex l k = some a := by
  unfold pyIndex
  by_cases h₀ : 0 ≤ k
  · rw [if_pos h₀]
    have hn : k.toNat < l.length := by omega
    exact ⟨l.get ⟨k.toNat, hn⟩, List.get?_eq_get hn⟩
  · rw [if_neg h₀, if_pos (by omega)]
    have hn : ((l.length : Int) + k).toNat < l.length := by omega
    exact ⟨l.get ⟨_, hn⟩, List.get?_eq_get hn⟩

theorem zipLoop_entries (extracted : List CarvedFile) (total : Nat) :
    ∀ pairs : List (Nat × Int),
      (∀ p ∈ pairs, -(extracted.length : Int) ≤ p.2) →
      (zipLoop extracted total pairs).2.1 =
        pairs.filterMap (fun p =>
          if p.2 < (extracted.length : Int) then
            (pyIndex extracted p.2).map (fun fi => (fi.name, fi.data))
          else none)
  | [], _ => rfl
  | (idx, k) :: rest, h => by
      have hrest := zipLoop_entries extracted total rest
        (fun p hp => h p (List.mem_cons_of_mem _ hp))
      by_cases hk : k < (extracted.length : Int)
      · rcases pyIndex_isSome hk (h (idx, k) (List.mem_cons_self _ _)) with ⟨fi, hfi⟩
        simp [zipLoop, hk, hfi, List.filterMap_cons, hrest]
      · simp [zipLoop, hk, List.filterMap_cons, hrest]

/-- C3 (amended): provided no supplied index is below `-len(carved)`
(which would abort with an `IndexError`), the written selection is, in
supplied order: indices `≥ len(carved)` silently skipped, and every index
`k < len(carved)` — including negative ones — resolved by Python list
indexing (`carved[k]`, counting from the back when `k < 0`); duplicates
produce duplicate entries. -/
theorem claim3_amended (extracted : List CarvedFile) (selected : List Int)
    (h : ∀ k ∈ selected, -(extracted.length : Int) ≤ k) :
    (zipLoop extracted selected.length selected.enum).2.1 =
      selected.filterMap (fun k =>
        if k < (extracted.length : Int) then
          (pyIndex extracted k).map (fun fi => (fi.name, fi.data))
        else none) := by
  rw [zipLoop_entries extracted selected.length selected.enum
    (fun p hp => by
      apply h p.2
      have hm := List.mem_map_of_mem Prod.snd hp
      rwa [List.enum_map_snd] at hm)]
  conv_rhs => rw [← List.enum_map_snd selected]
  rw [List.filterMap_map]
  rfl

/-- C3 witness: on the single-record carve of the empty input, the
selection `[-1, 0, 5]` resolves `-1` and `0` to the fallback record and
skips `5`. -/
theorem claim3_witness :
    writtenEntries [] [-1, 0, 5] =
      [("binary_data.bin", []), ("binary_data.bin", [])] := by
  have h := claim3_amended (extract_binary_file []) [-1, 0, 5] (by decide)
  rw [writtenEntries, h]
  decide

/-- C3 counterexample: the claim says every index outside `[0, len)` —
including negative indices — is silently skipped, so selecting `[-1]` from
the 1-record carve of the empty input should give an empty selection; the
code instead resolves `-1` by Python negative indexing and writes the
fallback record. -/
theorem claim3_counterexample :
    writtenEntries [] [-1] = [("binary_data.bin", [])] := by decide

/-- Is an event the terminal complete event? -/
def isComplete : ProgressEvent → Bool
  | ProgressEvent.complete _ => true
  | _ => false

/-- Is an event the terminal error event? -/
def isError : ProgressEvent → Bool
  | ProgressEvent.error _ => true
  | _ => false

/-- Number of complete events in a stream. -/
def countComplete (evs : List ProgressEvent) : Nat :=
  evs.countP (fun e => isComplete e)

/-- Number of error events in a stream. -/
def countError (evs : List ProgressEvent) : Nat :=
  evs.countP (fun e => isError e)

theorem zipLoop_terminal (extracted : List CarvedFile) (total : Nat) :
    ∀ pairs : List (Nat × Int),
      countComplete (zipLoop extracted total pairs).1 = 0 ∧
      ((zipLoop extracted total pairs).2.2 = true →
        countError (zipLoop extracted total pairs).1 = 0) ∧
      ((zipLoop extracted total pairs).2.2 = false →
        ∃ evs msg,
          (zipLoop extracted total pairs).1 = evs ++ [ProgressEvent.error msg]
          ∧ countError evs = 0 ∧ countComplete evs = 0)
  | [] => by
      refine ⟨rfl, fun _ => rfl, fun h => ?_⟩
      simp [zipLoop] at h
  | (idx, k) :: rest => by
      obtain ⟨ih₁, ih₂, ih₃⟩ := zipLoop_terminal extracted total rest
      by_cases hk : k < (extracted.length : Int)
      · cases hfi : pyIndex extracted k with
        | none =>
            refine ⟨?_, fun h => ?_, fun _ => ⟨[], "list index out of range", ?_, rfl, rfl⟩⟩
            · simp [zipLoop, hk, hfi, countComplete, isComplete]
            · simp [zipLoop, hk, hfi] at h
            · simp [zipLoop, hk, hfi]
        | some fi =>
            refine ⟨?_, fun h => ?_, fun h => ?_⟩
            · simpa [zipLoop, hk, hfi, countComplete, List.countP_cons,
                isComplete] using ih₁
            · have hok : (zipLoop extracted total rest).2.2 = true := by
                simpa [zipLoop, hk, hfi] using h
              simpa [zipLoop, hk, hfi, countError, List.countP_cons,
                isError] using ih₂ hok
            · have hko : (zipLoop extracted total rest).2.2 = false := by
                simpa [zipLoop, hk, hfi] using h
              obtain ⟨evs, msg, he, hcE, hcC⟩ := ih₃ hko
              refine ⟨ProgressEvent.progress (pyPercent idx total)
                ("Adding " ++ fi.name) :: evs, msg, ?_, ?_, ?_⟩
              · simp [zipLoop, hk, hfi, he]
              · simpa [countError, List.countP_cons, isError] using hcE
              · simpa [countComplete, List.countP_cons, isComplete] using hcC
      · refine ⟨?_, fun h => ?_, fun h => ?_⟩
        · simpa [zipLoop, hk] using ih₁
        · simpa [zipLoop, hk] using ih₂ (by simpa [zipLoop, hk] using h)
        · obtain ⟨evs, msg, he, hcE, hcC⟩ := ih₃ (by simpa [zipLoop, hk] using h)
          exact ⟨evs, msg, by simpa [zipLoop, hk] using he, hcE, hcC⟩

/-- C5: for every oracle outcome and non-empty selection, the event stream
of the archiver contains exactly one complete event and no error event, or
exactly one error event and no complete event, the error being the final
event of the stream. -/
theorem claim5_completion (metaOk binOk saveOk : Bool)
    (zipSize : List (String × List Nat) → Nat)
    (content : List Nat) (selected : List Int) (hsel : selected ≠ []) :
    (countComplete (progress_generator metaOk binOk saveOk zipSize content selected) = 1 ∧
     countError (progress_generator metaOk binOk saveOk zipSize content selected) = 0) ∨
    (countError (progress_generator metaOk binOk saveOk zipSize content selected) = 1 ∧
     countComplete (progress_generator metaOk binOk saveOk zipSize content selected) = 0 ∧
     ∃ msg, (progress_generator metaOk binOk saveOk zipSize content selected).getLast?
       = some (ProgressEvent.error msg)) := by
  cases metaOk with
  | false =>
      right
      exact ⟨rfl, rfl, "No such file or directory: metadata", rfl⟩
  | true =>
  cases binOk with
  | false =>
      right
      exact ⟨rfl, rfl, "No such file or directory: bin", rfl⟩
  | true =>
  obtain ⟨h₁, h₂, h₃⟩ := zipLoop_terminal (extract_binary_file content)
    selected.length selected.enum
  cases hok : (zipLoop (extract_binary_file content) selected.length
      selected.enum).2.2 with
  | true =>
      cases saveOk with
      | true =>
          left
          constructor
          · simp [progress_generator, hok, countComplete, List.countP_append,
              List.countP_cons, isComplete, countComplete] at h₁ ⊢
            exact h₁
          · have hE := h₂ hok
            simp [progress_generator, hok, countError, List.countP_append,
              List.countP_cons, isError] at hE ⊢
            exact hE
      | false =>
          right
          refine ⟨?_, ?_, "save failed", ?_⟩
          · have hE := h₂ hok
            simp [progress_generator, hok, countError, List.countP_append,
              List.countP_cons, isError] at hE ⊢
            exact hE
          · simp [progress_generator, hok, countComplete, List.countP_append,
              List.countP_cons, isComplete] at h₁ ⊢
            exact h₁
          · simp only [progress_generator, hok, if_true, if_false,
              Bool.false_eq_true]
            rw [show ProgressEvent.info "Extracting files from binary..." ::
                ProgressEvent.info ("Found " ++
                  toString (extract_binary_file content).length ++ " files") ::
                ((zipLoop (extract_binary_file content) selected.length
                  selected.enum).1 ++
                  [ProgressEvent.progress 100 "ZIP creation complete!",
                   ProgressEvent.error "save failed"]) =
              (ProgressEvent.info "Extracting files from binary..." ::
                ProgressEvent.info ("Found " ++
                  toString (extract_binary_file content).length ++ " files") ::
                ((zipLoop (extract_binary_file content) selected.length
                  selected.enum).1 ++
                  [ProgressEvent.progress 100 "ZIP creation complete!"])) ++
                [ProgressEvent.error "save failed"] from by simp]
            exact List.getLast?_concat _
  | false =>
      obtain ⟨evs, msg, he, hcE, hcC⟩ := h₃ hok
      right
      refine ⟨?_, ?_, msg, ?_⟩
      · simpa [progress_generator, hok, he, countError, List.countP_append,
          List.countP_cons, isError] using hcE
      · simpa [progress_generator, hok, he, countComplete, List.countP_append,
          List.countP_cons, isComplete] using hcC
      · simp only [progress_generator, hok, if_true, Bool.false_eq_true,
          if_false, he]
        rw [show ProgressEvent.info "Extracting files from binary..." ::
            ProgressEvent.info ("Found " ++
              toString (extract_binary_file content).length ++ " files") ::
            ((evs ++ [ProgressEvent.error msg]) ++ []) =
          (ProgressEvent.info "Extracting files from binary..." ::
            ProgressEvent.info ("Found " ++
              toString (extract_binary_file content).length ++ " files") ::
            evs) ++ [ProgressEvent.error msg] from by simp]
        exact List.getLast?_concat _

/-- C5 witness: the happy-path run over the singleton selection `[0]` of
the empty input's carve ends in exactly one complete event. -/
theorem claim5_witness :
    (countComplete (progress_generator true true true (fun _ => 0) [] [0]) = 1 ∧
     countError (progress_generator true true true (fun _ => 0) [] [0]) = 0) ∨
    (countError (progress_generator true true true (fun _ => 0) [] [0]) = 1 ∧
     countComplete (progress_generator true true true (fun _ => 0) [] [0]) = 0 ∧
     ∃ msg, (progress_generator true true true (fun _ => 0) [] [0]).getLast?
       = some (ProgressEvent.error msg)) :=
  claim5_completion true true true (fun _ => 0) [] [0] (by decide)

/-- C9: on an empty selection the archiver performs no per-item work (no
per-item progress events, the zero-division of the percent formula is never
reached because the loop body never runs), and still emits the two info
events, the final 100-percent progress event, and exactly one complete
event whose size is that of the archive with no entries. -/
theorem claim9_empty_selection (zipSize : List (String × List Nat) → Nat)
    (content : List Nat) :
    progress_generator true true true zipSize content [] =
      [ProgressEvent.info "Extracting files from binary...",
       ProgressEvent.info ("Found " ++
         toString (extract_binary_file content).length ++ " files"),
       ProgressEvent.progress 100 "ZIP creation complete!",
       ProgressEvent.complete (zipSize [])] := rfl

/-- Extract the percent of a progress event. -/
def progressValue : ProgressEvent → Option Nat
  | ProgressEvent.progress v _ => some v
  | _ => none

/-- The first item's percent is 0: `0 / total` is exactly 0.0 and
`0.0 * 100` is exactly 0.0, for every selection size. -/
theorem pyPercent_zero (total : Nat) : pyPercent 0 total = 0 := by
  simp [pyPercent, pyDiv, pyMul100, mantShift, roundEvenDiv]

theorem zipLoop_percents (extracted : List CarvedFile) (total : Nat) :
    ∀ pairs : List (Nat × Int),
      (∀ p ∈ pairs, 0 ≤ p.2 ∧ p.2 < (extracted.length : Int)) →
      (zipLoop extracted total pairs).1.filterMap progressValue =
        pairs.map (fun p => pyPercent p.1 total) ∧
      (zipLoop extracted total pairs).2.2 = true
  | [], _ => ⟨rfl, rfl⟩
  | (idx, k) :: rest, h => by
      obtain ⟨h₀, hk⟩ := h (idx, k) (List.mem_cons_self _ _)
      obtain ⟨ih₁, ih₂⟩ := zipLoop_percents extracted total rest
        (fun p hp => h p (List.mem_cons_of_mem _ hp))
      rcases pyIndex_isSome hk (by omega) with ⟨fi, hfi⟩
      refine ⟨?_, ?_⟩
      · simp [zipLoop, hk, hfi, List.filterMap_cons, progressValue, ih₁]
      · simpa [zipLoop, hk, hfi] using ih₂

/-- C6 (amended): for an all-in-range selection, the stream's progress
percents are, in order, `pyPercent 0 total, …, pyPercent (total-1) total`
(the binary64 evaluation of `int((idx / total) * 100)`, which can fall one
below the exact `floor(idx * 100 / total)` — see the counterexample)
followed by the one final fixed 100; the first item's percent is 0. -/
theorem claim6_amended (content : List Nat) (selected : List Int)
    (zipSize : List (String × List Nat) → Nat)
    (h : ∀ k ∈ selected, 0 ≤ k ∧
      k < ((extract_binary_file content).length : Int)) :
    (progress_generator true true true zipSize content selected).filterMap
        progressValue =
      (List.range selected.length).map
        (fun idx => pyPercent idx selected.length) ++ [100] ∧
    pyPercent 0 selected.length = 0 := by
  refine ⟨?_, pyPercent_zero _⟩
  obtain ⟨hL, hok⟩ := zipLoop_percents (extract_binary_file content)
    selected.length selected.enum
    (fun p hp => by
      apply h p.2
      have hm := List.mem_map_of_mem Prod.snd hp
      rwa [List.enum_map_snd] at hm)
  simp only [progress_generator, if_true]
  rw [hok]
  simp only [List.filterMap_cons, progressValue, List.filterMap_append, hL]
  rw [← List.enum_map_fst selected, List.map_map]
  rfl

/-- C6 witness: the two-element all-in-range selection `[0, 0]` over the
carve of the empty input produces percents `[0, 50]` then the final 100. -/
theorem claim6_witness :
    (progress_generator true true true (fun _ => 0) [] [0, 0]).filterMap
        progressValue =
      (List.range ([0, 0] : List Int).length).map
        (fun idx => pyPercent idx ([0, 0] : List Int).length) ++ [100] ∧
    pyPercent 0 ([0, 0] : List Int).length = 0 :=
  claim6_amended [] [0, 0] (fun _ => 0) (by decide)

/-- C6 counterexample: with 50 selected items, the claimed formula gives
`floor(29 / 50 * 100) = 58` for the item at zero-based index 29, but the
float computation `int((29 / 50) * 100)` — and hence the 30th per-item
progress event of the stream — yields 57: `0.58` is not representable in
binary64 and rounds to `0.579999999999999960…`, whose product with 100
truncates to 57. -/
theorem claim6_counterexample :
    pyPercent 29 50 = 57 ∧ 29 * 100 / 50 = 58 ∧
    ((progress_generator true true true (fun _ => 0) []
        (List.replicate 50 0)).filterMap progressValue).get? 29
      = some 57 := by
  refine ⟨by decide, by decide, by decide⟩

end BinExtractor
